import Mathlib

/-!
Verification of the HRM Scheduling System core (`backend/scheduler.py`,
`backend/main.py`, `backend/api_server.py`).

The constraint model built by `ShiftScheduler.generate_schedule` is embedded
shallowly: a solver valuation is a function `x : Nat → Nat → Nat → Nat → Bool`
giving the value of the boolean decision variable `shifts[(e, d, l, s)]`
(variables exist only for tuples where the employee has a required skill for
the location, mirroring the `if ... in shifts` guards).  The five constraint
families added to the CP-SAT model become boolean checkers over a valuation;
`feasible` states that a valuation satisfies every constraint the code adds,
which is exactly the guarantee the solver gives for any OPTIMAL or FEASIBLE
outcome.  Schedule extraction and the statistics engine are embedded as pure
functions over the extracted assignment list; Python float arithmetic is
idealised as real arithmetic, with `round(v, n)` modelled via `round`.
-/

namespace HRM

/-- An entry of `employees.json`: stable id, display name, skill set
(Python stores skills as a JSON list, used as a set). -/
structure Employee where
  id : Nat
  name : String
  skills : List String
deriving DecidableEq

/-- An entry of `locations.json`: id, name, required skills, and an optional
capacity (`location.get('capacity', 20)` in the code). -/
structure Location where
  id : Nat
  name : String
  required_skills : List String
  capacity : Option Int
deriving DecidableEq

/-- An entry of `shifts.json`: id, name and display times; the position in the
list defines the shift index `s`. -/
structure Shift where
  id : Nat
  name : String
  start_time : String
  end_time : String
deriving DecidableEq

/-- The scheduler state set up in `ShiftScheduler.__init__`: the three input
collections and the constants.  The defaults are the values assigned in
`__init__`; `min_employees_per_shift` can later be overwritten from the AI
pre-analysis (`main.py` / `api_server.py`). -/
structure ShiftScheduler where
  employees : List Employee
  locations : List Location
  shifts : List Shift
  num_days : Nat := 14
  min_employees_per_shift : Nat := 2
  max_shifts_per_employee_per_week : Nat := 10
  min_shifts_per_employee_per_week : Nat := 5
deriving DecidableEq

def ShiftScheduler.num_employees (sc : ShiftScheduler) : Nat := sc.employees.length

def ShiftScheduler.num_locations (sc : ShiftScheduler) : Nat := sc.locations.length

def ShiftScheduler.num_shifts_per_day (sc : ShiftScheduler) : Nat := sc.shifts.length

/-- `ShiftScheduler._employee_has_required_skills`: true iff the employee's
skill set intersects the location's required skills
(`bool(employee_skills.intersection(required_skills))`). -/
def _employee_has_required_skills (employee : Employee) (location : Location) : Bool :=
  employee.skills.any (fun sk => location.required_skills.contains sk)

/-- A decision variable `shifts[(e, d, l, s)]` exists exactly for the tuples
enumerated by the variable-creation loops of `generate_schedule`: indices in
range and `_employee_has_required_skills` holding. -/
def hasVar (sc : ShiftScheduler) (e d l s : Nat) : Bool :=
  match sc.employees[e]?, sc.locations[l]? with
  | some emp, some loc =>
      decide (d < sc.num_days) && decide (s < sc.num_shifts_per_day) &&
        _employee_has_required_skills emp loc
  | _, _ => false

/-- A solver valuation of the decision variables. -/
def Valuation : Type := Nat → Nat → Nat → Nat → Bool

/-- The list `employees_for_shift` built for cell `(d, l, s)`: employees whose
variable exists at that cell. -/
def employees_for_shift (sc : ShiftScheduler) (d l s : Nat) : List Nat :=
  (List.range sc.num_employees).filter (fun e => hasVar sc e d l s)

/-- The value of `sum(employees_for_shift)` at a cell under a valuation. -/
def cellCount (sc : ShiftScheduler) (x : Valuation) (d l s : Nat) : Nat :=
  ((employees_for_shift sc d l s).filter (fun e => x e d l s)).length

/-- The capacity used by CONSTRAINT 2: `self.locations[l].get('capacity', 20)`. -/
def capacityOf (sc : ShiftScheduler) (l : Nat) : Int :=
  match sc.locations[l]? with
  | some loc => loc.capacity.getD 20
  | none => 20

/-- CONSTRAINT 1 of `generate_schedule`: each cell with at least one variable
gets `sum >= min_employees_per_shift`; cells with no variable are skipped. -/
def constraint1 (sc : ShiftScheduler) (x : Valuation) : Bool :=
  (List.range sc.num_days).all fun d =>
  (List.range sc.num_locations).all fun l =>
  (List.range sc.num_shifts_per_day).all fun s =>
    (employees_for_shift sc d l s).isEmpty ||
      decide (sc.min_employees_per_shift ≤ cellCount sc x d l s)

/-- CONSTRAINT 2: each cell with at least one variable gets `sum <= capacity`. -/
def constraint2 (sc : ShiftScheduler) (x : Valuation) : Bool :=
  (List.range sc.num_days).all fun d =>
  (List.range sc.num_locations).all fun l =>
  (List.range sc.num_shifts_per_day).all fun s =>
    (employees_for_shift sc d l s).isEmpty ||
      decide ((cellCount sc x d l s : Int) ≤ capacityOf sc l)

/-- CONSTRAINT 3: for each `(e, d, s)`, the sum over locations of the existing
variables is at most 1. -/
def constraint3 (sc : ShiftScheduler) (x : Valuation) : Bool :=
  (List.range sc.num_employees).all fun e =>
  (List.range sc.num_days).all fun d =>
  (List.range sc.num_shifts_per_day).all fun s =>
    let shifts_for_time := (List.range sc.num_locations).filter (fun l => hasVar sc e d l s)
    shifts_for_time.isEmpty ||
      decide ((shifts_for_time.filter (fun l => x e d l s)).length ≤ 1)

/-- CONSTRAINT 4 exactly as the code emits it: the shift pairs `(0,1)` and
`(1,2)` are hard-coded, and each block is guarded by the existence of the
variables `(e, d, 0, 0)`/`(e, d, 0, 1)` (resp. `(e, d, 0, 1)`/`(e, d, 0, 2)`)
at location index 0. -/
def constraint4 (sc : ShiftScheduler) (x : Valuation) : Bool :=
  (List.range sc.num_employees).all fun e =>
  (List.range sc.num_days).all fun d =>
    (!(hasVar sc e d 0 0 && hasVar sc e d 0 1) ||
      ((List.range sc.num_locations).all fun l1 =>
       (List.range sc.num_locations).all fun l2 =>
        !(hasVar sc e d l1 0 && hasVar sc e d l2 1) || !(x e d l1 0 && x e d l2 1))) &&
    (!(hasVar sc e d 0 1 && hasVar sc e d 0 2) ||
      ((List.range sc.num_locations).all fun l1 =>
       (List.range sc.num_locations).all fun l2 =>
        !(hasVar sc e d l1 1 && hasVar sc e d l2 2) || !(x e d l1 1 && x e d l2 2)))

/-- The days of week `w`: `range(week * 7, min((week + 1) * 7, num_days))`. -/
def week_days (sc : ShiftScheduler) (week : Nat) : List Nat :=
  List.range' (week * 7) (min ((week + 1) * 7) sc.num_days - week * 7)

/-- Number of decision variables of employee `e` over the days of week `w`
(the length of the `total_shifts` list in CONSTRAINT 5). -/
def weekly_support (sc : ShiftScheduler) (e week : Nat) : Nat :=
  ((week_days sc week).map fun d =>
    ((List.range sc.num_locations).map fun l =>
      ((List.range sc.num_shifts_per_day).filter fun s => hasVar sc e d l s).length).sum).sum

/-- Value of `sum(total_shifts)` for employee `e` in week `w` under `x`. -/
def weekly_total (sc : ShiftScheduler) (x : Valuation) (e week : Nat) : Nat :=
  ((week_days sc week).map fun d =>
    ((List.range sc.num_locations).map fun l =>
      ((List.range sc.num_shifts_per_day).filter fun s =>
        hasVar sc e d l s && x e d l s).length).sum).sum

/-- CONSTRAINT 5: for each employee and each of the two weeks, if the employee
has any variable in that week (`if total_shifts:`), the weekly sum is bounded
by `min_shifts_per_employee_per_week` and `max_shifts_per_employee_per_week`. -/
def constraint5 (sc : ShiftScheduler) (x : Valuation) : Bool :=
  (List.range sc.num_employees).all fun e =>
  (List.range 2).all fun week =>
    decide (weekly_support sc e week = 0) ||
      (decide (sc.min_shifts_per_employee_per_week ≤ weekly_total sc x e week) &&
       decide (weekly_total sc x e week ≤ sc.max_shifts_per_employee_per_week))

/-- A valuation satisfies every constraint `generate_schedule` adds to the
CP-SAT model.  Any OPTIMAL or FEASIBLE solver outcome returns such a valuation. -/
def feasible (sc : ShiftScheduler) (x : Valuation) : Bool :=
  constraint1 sc x && constraint2 sc x && constraint3 sc x &&
    constraint4 sc x && constraint5 sc x

/-- Property claimed by the spec (§3 invariant 4 / §8 property 4): no employee
holds, on the same day, assignments at adjacent shift indices `s` and `s + 1`,
for any `s < S - 1` and any pair of locations. -/
def no_adjacent_pairs (sc : ShiftScheduler) (x : Valuation) : Bool :=
  (List.range sc.num_employees).all fun e =>
  (List.range sc.num_days).all fun d =>
  (List.range (sc.num_shifts_per_day - 1)).all fun s =>
  (List.range sc.num_locations).all fun l1 =>
  (List.range sc.num_locations).all fun l2 =>
    !(hasVar sc e d l1 s && x e d l1 s && hasVar sc e d l2 (s + 1) && x e d l2 (s + 1))

/-- Property claimed by the spec (§8 property 5): every employee's weekly
total lies within the weekly bounds, in both weeks. -/
def weekly_bounds_all (sc : ShiftScheduler) (x : Valuation) : Bool :=
  (List.range sc.num_employees).all fun e =>
  (List.range 2).all fun week =>
    decide (sc.min_shifts_per_employee_per_week ≤ weekly_total sc x e week) &&
      decide (weekly_total sc x e week ≤ sc.max_shifts_per_employee_per_week)

/-- Concrete instance for the adjacency gap: six employees with skill `A`
(compatible only with location 0), six with skill `B` (compatible only with
location 1), two locations, the standard three-shift template, and the
default constants of `__init__`. -/
def cex1 : ShiftScheduler where
  employees :=
    [⟨0, "e0", ["A"]⟩, ⟨1, "e1", ["A"]⟩, ⟨2, "e2", ["A"]⟩,
     ⟨3, "e3", ["A"]⟩, ⟨4, "e4", ["A"]⟩, ⟨5, "e5", ["A"]⟩,
     ⟨6, "e6", ["B"]⟩, ⟨7, "e7", ["B"]⟩, ⟨8, "e8", ["B"]⟩,
     ⟨9, "e9", ["B"]⟩, ⟨10, "e10", ["B"]⟩, ⟨11, "e11", ["B"]⟩]
  locations := [⟨0, "L0", ["A"], none⟩, ⟨1, "L1", ["B"], none⟩]
  shifts := [⟨0, "morning", "06:00", "14:00"⟩, ⟨1, "afternoon", "14:00", "22:00"⟩,
             ⟨2, "evening", "22:00", "06:00"⟩]

/-- A valuation for `cex1`: a round-robin in which every employee works one
shift per day at their compatible location (two employees per cell), plus one
extra assignment giving employee 6 — who is not compatible with location
index 0 — the adjacent shifts 0 and 1 on day 0. -/
def x1 : Valuation := fun e d l s =>
  (decide (e < 6) && decide (l = 0) && decide (s = (d + e) % 3)) ||
  (decide (6 ≤ e) && decide (e < 12) && decide (l = 1) && decide (s = (d + e) % 3)) ||
  (decide (e = 6) && decide (d = 0) && decide (l = 1) && decide (s = 1))

/-- Concrete instance with an employee no location is compatible with: six
employees with skill `A`, one with skill `C`, a single location requiring
`A`, the three-shift template, and the default constants. -/
def cex2 : ShiftScheduler where
  employees :=
    [⟨0, "e0", ["A"]⟩, ⟨1, "e1", ["A"]⟩, ⟨2, "e2", ["A"]⟩,
     ⟨3, "e3", ["A"]⟩, ⟨4, "e4", ["A"]⟩, ⟨5, "e5", ["A"]⟩,
     ⟨6, "e6", ["C"]⟩]
  locations := [⟨0, "L0", ["A"], none⟩]
  shifts := [⟨0, "morning", "06:00", "14:00"⟩, ⟨1, "afternoon", "14:00", "22:00"⟩,
             ⟨2, "evening", "22:00", "06:00"⟩]

/-- A valuation for `cex2`: employees 0–5 each work one shift per day in a
round-robin (two per cell); employee 6 has no decision variable at all. -/
def x2 : Valuation := fun e d l s =>
  decide (e < 6) && decide (l = 0) && decide (s = (d + e) % 3)

/-- The output record built for tuple `(e, d, l, s)` in `_extract_schedule`.
The `date` field abbreviates `str(self.dates[d])` by the day index `d`
(the 14 wall-clock dates are pairwise distinct strings, so the index is a
faithful stand-in). -/
structure Assignment where
  employee_id : Nat
  employee_name : String
  date : Nat
  location_id : Nat
  location_name : String
  shift_id : Nat
  shift_name : String
  start_time : String
  end_time : String
deriving DecidableEq

/-- The denormalised record appended for `(e, d, l, s)` (indices are in range
whenever this is applied during extraction, so the `getD` defaults are inert). -/
def mkAssignment (sc : ShiftScheduler) (e d l s : Nat) : Assignment :=
  let emp := (sc.employees[e]?).getD ⟨0, "", []⟩
  let loc := (sc.locations[l]?).getD ⟨0, "", [], none⟩
  let sh := (sc.shifts[s]?).getD ⟨0, "", "", ""⟩
  ⟨emp.id, emp.name, d, loc.id, loc.name, sh.id, sh.name, sh.start_time, sh.end_time⟩

/-- The tuples visited by the nested loops of `_extract_schedule`, in loop
order, keeping exactly those whose variable exists and is valued 1. -/
def extractTuples (sc : ShiftScheduler) (x : Valuation) : List (Nat × Nat × Nat × Nat) :=
  ((List.range sc.num_employees).map fun e =>
    ((List.range sc.num_days).map fun d =>
      ((List.range sc.num_locations).map fun l =>
        (((List.range sc.num_shifts_per_day).filter fun s =>
            hasVar sc e d l s && x e d l s).map fun s => (e, d, l, s))).flatten).flatten).flatten

/-- `ShiftScheduler._extract_schedule`: one denormalised record per extracted
tuple, in loop order. -/
def _extract_schedule (sc : ShiftScheduler) (x : Valuation) : List Assignment :=
  (extractTuples sc x).map fun t => mkAssignment sc t.1 t.2.1 t.2.2.1 t.2.2.2

/-- Insertion of a key into a Python-dict key list: appended if new. -/
def insertKey (acc : List Nat) (k : Nat) : List Nat :=
  if k ∈ acc then acc else acc ++ [k]

/-- The key list of a Python dict built by repeated `d[k] = ...` updates over
a stream of keys: first-occurrence order, no duplicates. -/
def pyKeys (l : List Nat) : List Nat := l.foldl insertKey []

/-- Keys of the `employee_shifts` / `employee_locations` /
`employee_shift_types` dicts: employee ids in first-occurrence order. -/
def empIds (schedule : List Assignment) : List Nat :=
  pyKeys (schedule.map fun a => a.employee_id)

/-- `employee_shifts[k]`: number of assignments of employee id `k`. -/
def empCount (schedule : List Assignment) (k : Nat) : Nat :=
  (schedule.filter fun a => a.employee_id == k).length

/-- Keys of the `location_shifts` dict. -/
def locIds (schedule : List Assignment) : List Nat :=
  pyKeys (schedule.map fun a => a.location_id)

/-- `location_shifts[k]`. -/
def locCount (schedule : List Assignment) (k : Nat) : Nat :=
  (schedule.filter fun a => a.location_id == k).length

/-- Keys of the `day_shifts` dict (dates, represented by day index). -/
def dayIds (schedule : List Assignment) : List Nat :=
  pyKeys (schedule.map fun a => a.date)

/-- `day_shifts[k]`. -/
def dayCount (schedule : List Assignment) (k : Nat) : Nat :=
  (schedule.filter fun a => a.date == k).length

/-- Keys of the `shift_type_counts` dict. -/
def typeIds (schedule : List Assignment) : List Nat :=
  pyKeys (schedule.map fun a => a.shift_id)

/-- `shift_type_counts[k]`. -/
def typeCount (schedule : List Assignment) (k : Nat) : Nat :=
  (schedule.filter fun a => a.shift_id == k).length

/-- `list(employee_shifts.values())` (`shift_values` in the code). -/
def shift_values (schedule : List Assignment) : List Nat :=
  (empIds schedule).map (empCount schedule)

/-- Python `min` of a non-empty list, with the code's `else 0` fallback
(`min(employee_shifts.values()) if employee_shifts else 0`). -/
def pyMin (l : List Nat) : Nat :=
  match l with
  | [] => 0
  | a :: t => t.foldl min a

/-- Python `max` of a non-empty list, with the code's `else 0` fallback. -/
def pyMax (l : List Nat) : Nat :=
  match l with
  | [] => 0
  | a :: t => t.foldl max a

/-- `round(v, 2)` on the idealised real value: nearest multiple of `1/100`
(Python rounds ties to even on the underlying binary float; no value in this
development sits on a tie). -/
noncomputable def round2 (v : ℝ) : ℝ := (round (v * 100) : ℤ) / 100

/-- `round(v, 4)`. -/
noncomputable def round4 (v : ℝ) : ℝ := (round (v * 10000) : ℤ) / 10000

/-- `avg_shifts`: mean of `shift_values`, `0` when the schedule has no
assigned employee (the `else` branch of the load-balancing block). -/
noncomputable def avg_shifts (schedule : List Assignment) : ℝ :=
  if shift_values schedule = [] then 0
  else ((shift_values schedule).map (Nat.cast : Nat → ℝ)).sum / (shift_values schedule).length

/-- `variance = sum((x - avg_shifts) ** 2 for x in shift_values) / len(shift_values)`
(only ever read when `shift_values` is non-empty; `0` placeholder otherwise). -/
noncomputable def varianceStat (schedule : List Assignment) : ℝ :=
  if shift_values schedule = [] then 0
  else ((shift_values schedule).map (fun v : Nat => ((v : ℝ) - avg_shifts schedule) ^ 2)).sum
        / (shift_values schedule).length

/-- `std_dev = variance ** 0.5`. -/
noncomputable def std_dev (schedule : List Assignment) : ℝ :=
  Real.sqrt (varianceStat schedule)

/-- `coefficient_of_variation = (std_dev / avg_shifts) if avg_shifts > 0 else 0`. -/
noncomputable def coefficient_of_variation (schedule : List Assignment) : ℝ :=
  if shift_values schedule = [] then 0
  else if 0 < avg_shifts schedule then std_dev schedule / avg_shifts schedule else 0

/-- `load_balance_score = max(0, min(100, 100 * (1 - coefficient_of_variation)))`,
with the `else` branch setting `0` when no employee has an assignment. -/
noncomputable def load_balance_score_raw (schedule : List Assignment) : ℝ :=
  if shift_values schedule = [] then 0
  else max 0 (min 100 (100 * (1 - coefficient_of_variation schedule)))

/-- `location_diversity[k] = len(employee_locations[k])`: distinct locations
employee `k` is assigned to. -/
def location_diversity (schedule : List Assignment) (k : Nat) : Nat :=
  (pyKeys ((schedule.filter fun a => a.employee_id == k).map fun a => a.location_id)).length

/-- `employees_multi_location`: employees assigned to more than one location. -/
def employees_multi_location (schedule : List Assignment) : Nat :=
  ((empIds schedule).filter fun k => 1 < location_diversity schedule k).length

/-- `location_diversity_rate` before rounding. -/
noncomputable def location_diversity_rate_raw (schedule : List Assignment) : ℝ :=
  if empIds schedule = [] then 0
  else (employees_multi_location schedule : ℝ) / (empIds schedule).length * 100

/-- `avg_locations_per_employee` before rounding. -/
noncomputable def avg_locations_per_employee_raw (schedule : List Assignment) : ℝ :=
  if empIds schedule = [] then 0
  else (((empIds schedule).map fun k => (location_diversity schedule k : ℝ)).sum)
        / (empIds schedule).length

/-- Keys of the per-employee shift-type histogram `employee_shift_types[k]`. -/
def typeIdsOf (schedule : List Assignment) (k : Nat) : List Nat :=
  pyKeys ((schedule.filter fun a => a.employee_id == k).map fun a => a.shift_id)

/-- `employee_shift_types[k][t]`. -/
def typeCountOf (schedule : List Assignment) (k t : Nat) : Nat :=
  (schedule.filter fun a => a.employee_id == k && a.shift_id == t).length

/-- `list(shift_dist.values())` for employee `k`. -/
def histValues (schedule : List Assignment) (k : Nat) : List Nat :=
  (typeIdsOf schedule k).map (typeCountOf schedule k)

/-- The entropy computed per employee:
`-sum((count/total) * log2(count/total) if count > 0 else 0 for count in values)`
with `total = sum(values)`. -/
noncomputable def entropyOf (counts : List Nat) : ℝ :=
  -((counts.map (fun c : Nat =>
      if 0 < c then (c : ℝ) / (counts.sum : ℝ) * Real.logb 2 ((c : ℝ) / (counts.sum : ℝ))
      else 0)).sum)

/-- `diversity_score = (entropy / max_entropy) * 100 if max_entropy > 0 else 0`
where `max_entropy = math.log2(3)` — hard-coded to 3 shift types regardless of
the actual template length. -/
noncomputable def diversity_score_of (counts : List Nat) : ℝ :=
  if 0 < Real.logb 2 3 then entropyOf counts / Real.logb 2 3 * 100 else 0

/-- `shift_diversity_scores`: one score per employee in the
`employee_shift_types` dict whose histogram total is positive. -/
noncomputable def shift_diversity_scores (schedule : List Assignment) : List ℝ :=
  (empIds schedule).filterMap fun k =>
    if 0 < (histValues schedule k).sum then some (diversity_score_of (histValues schedule k))
    else none

/-- `avg_shift_diversity` before rounding: mean of the per-employee scores,
`0` when there are none. -/
noncomputable def avg_shift_diversity_raw (schedule : List Assignment) : ℝ :=
  if shift_diversity_scores schedule = [] then 0
  else (shift_diversity_scores schedule).sum / (shift_diversity_scores schedule).length

/-- The dictionary returned by `_calculate_statistics`, flattened: the
`optimization_summary` sub-dict contributes the `fairness_*` and
`load_balancing_*` fields. -/
structure Statistics where
  total_assignments : Nat
  shifts_per_employee : List (Nat × Nat)
  shifts_per_location : List (Nat × Nat)
  shifts_per_day : List (Nat × Nat)
  shifts_per_type : List (Nat × Nat)
  min_shifts_per_employee : Nat
  max_shifts_per_employee : Nat
  avg_shifts_per_employee : ℝ
  load_balance_score : ℝ
  location_diversity : List (Nat × Nat)
  employees_multi_location : Nat
  location_diversity_rate : ℝ
  avg_locations_per_employee : ℝ
  avg_shift_diversity : ℝ
  conflicts_detected : Nat
  fairness_min_shifts : Nat
  fairness_max_shifts : Nat
  fairness_variance : ℝ
  fairness_score : ℝ
  load_balancing_score : ℝ
  load_balancing_cv : ℝ

/-- `ShiftScheduler._calculate_statistics`. -/
noncomputable def _calculate_statistics (schedule : List Assignment) : Statistics where
  total_assignments := schedule.length
  shifts_per_employee := (empIds schedule).map fun k => (k, empCount schedule k)
  shifts_per_location := (locIds schedule).map fun k => (k, locCount schedule k)
  shifts_per_day := (dayIds schedule).map fun k => (k, dayCount schedule k)
  shifts_per_type := (typeIds schedule).map fun k => (k, typeCount schedule k)
  min_shifts_per_employee := pyMin (shift_values schedule)
  max_shifts_per_employee := pyMax (shift_values schedule)
  avg_shifts_per_employee := avg_shifts schedule
  load_balance_score := round2 (load_balance_score_raw schedule)
  location_diversity := (empIds schedule).map fun k => (k, HRM.location_diversity schedule k)
  employees_multi_location := HRM.employees_multi_location schedule
  location_diversity_rate := round2 (location_diversity_rate_raw schedule)
  avg_locations_per_employee := round2 (avg_locations_per_employee_raw schedule)
  avg_shift_diversity := round2 (avg_shift_diversity_raw schedule)
  conflicts_detected := 0
  fairness_min_shifts := pyMin (shift_values schedule)
  fairness_max_shifts := pyMax (shift_values schedule)
  fairness_variance :=
    if shift_values schedule = [] then 0 else round2 (varianceStat schedule)
  fairness_score := round2 (load_balance_score_raw schedule)
  load_balancing_score := round2 (load_balance_score_raw schedule)
  load_balancing_cv :=
    if shift_values schedule = [] then 0 else round4 (coefficient_of_variation schedule)

/-- CP-SAT solver verdicts relevant to `generate_schedule`. -/
inductive CpStatus where
  | optimal
  | feasibleStatus
  | infeasible
  | model_invalid
  | unknown
deriving DecidableEq

/-- Error outcomes of `generate_schedule`.  `invalidInput` is the structured
validation error described by the spec (§7); the code itself only ever raises
the generic `Exception(f"Solver failed with status: {status}")`, embedded as
`solverFailed`. -/
inductive GenError where
  | invalidInput (field reason : String)
  | solverFailed (status : CpStatus)
deriving DecidableEq

/-- The result envelope assembled on success (`generated_at`, `dates` and the
echoed inputs are omitted; they carry no content the claims mention). -/
structure GenResult where
  status : String
  solver_status : String
  schedule : List Assignment
  statistics : Statistics

/-- `ShiftScheduler.generate_schedule`, with the external CP-SAT call
abstracted by its verdict and returned valuation: the code builds the model,
solves, and — with no input validation anywhere — either assembles the result
envelope (OPTIMAL/FEASIBLE) or raises. -/
noncomputable def generate_schedule (sc : ShiftScheduler) (solverStatus : CpStatus)
    (x : Valuation) : Except GenError GenResult :=
  match solverStatus with
  | .optimal =>
      .ok ⟨"SUCCESS", "OPTIMAL", _extract_schedule sc x,
        _calculate_statistics (_extract_schedule sc x)⟩
  | .feasibleStatus =>
      .ok ⟨"FEASIBLE", "FEASIBLE", _extract_schedule sc x,
        _calculate_statistics (_extract_schedule sc x)⟩
  | st => .error (.solverFailed st)

/-- The `suggested_constraints` dict returned by the AI pre-analysis advisor
(`ai_pre_analyzer.py` emits exactly these three keys). -/
structure SuggestedConstraints where
  min_employees_per_shift : Option Nat
  max_shifts_per_week : Option Nat
  min_shifts_per_week : Option Nat
deriving DecidableEq

/-- The advisor-override merge performed by `main.py` (and mirrored in
`api_server.py`): of the suggested constraints, only
`min_employees_per_shift` is ever copied onto the scheduler
(`if 'min_employees_per_shift' in constraints: scheduler.min_employees_per_shift = ...`). -/
def apply_suggested_constraints (sc : ShiftScheduler) (c : SuggestedConstraints) :
    ShiftScheduler :=
  match c.min_employees_per_shift with
  | some v => { sc with min_employees_per_shift := v }
  | none => sc

/-- Scheduler with an empty employee collection (and otherwise well-formed
inputs), used to show that no input validation happens. -/
def cexEmpty : ShiftScheduler where
  employees := []
  locations := [⟨0, "L0", ["A"], none⟩]
  shifts := [⟨0, "morning", "06:00", "14:00"⟩]

/-- The all-zero valuation. -/
def xFalse : Valuation := fun _ _ _ _ => false

/-- Unfolding `List.all` over `List.range`. -/
theorem all_range_iff (n : Nat) (p : Nat → Bool) :
    (List.range n).all p = true ↔ ∀ i, i < n → p i = true := by
  rw [List.all_eq_true]
  constructor
  · intro h i hi
    exact h i (List.mem_range.mpr hi)
  · intro h i hi
    exact h i (List.mem_range.mp hi)

/-- Splitting `feasible` into the five constraint families. -/
theorem feasible_iff (sc : ShiftScheduler) (x : Valuation) :
    feasible sc x = true ↔
      constraint1 sc x = true ∧ constraint2 sc x = true ∧ constraint3 sc x = true ∧
        constraint4 sc x = true ∧ constraint5 sc x = true := by
  simp [feasible, Bool.and_eq_true, and_assoc]

/-- C1: the claim states that in every successful result no employee works
adjacent shift indices on the same day — including employees not compatible
with the first-listed location.  The code guards CONSTRAINT 4 by the
existence of the variables `(e, d, 0, 0)` and `(e, d, 0, 1)` at location
index 0, so an employee with no required skill for `locations[0]` receives no
adjacency constraint at all: the valuation `x1` satisfies every emitted
constraint of `cex1` yet assigns employee 6 both shift 0 and shift 1 of day 0
at location 1. -/
theorem adjacency_gap_cex :
    feasible cex1 x1 = true ∧ no_adjacent_pairs cex1 x1 = false :=
  ⟨by decide, by decide⟩

/-- C2: the claim as stated — every employee's weekly totals lie in
`[min_week, max_week]` in every successful result, including employees with
no decision variable — is false: in `cex2`, employee 6 (skill `C`, compatible
with no location) has weekly total 0, below `min_week = 5`, while `x2`
satisfies every constraint the code emits, because the `if total_shifts:`
guard of CONSTRAINT 5 skips employees without variables. -/
theorem weekly_bounds_claim_false :
    ¬ (∀ sc x, feasible sc x = true → weekly_bounds_all sc x = true) := by
  intro h
  have hx := h cex2 x2 (by decide)
  exact (by decide : weekly_bounds_all cex2 x2 ≠ true) hx

/-- C2 (amended): in every successful result, every employee that has at
least one decision variable in a given week (equivalently, is compatible with
at least one location) has that week's total within
`[min_shifts_per_employee_per_week, max_shifts_per_employee_per_week]`. -/
theorem weekly_bounds_of_feasible (sc : ShiftScheduler) (x : Valuation) (e w : Nat)
    (hf : feasible sc x = true) (he : e < sc.num_employees) (hw : w < 2)
    (hs : weekly_support sc e w ≠ 0) :
    sc.min_shifts_per_employee_per_week ≤ weekly_total sc x e w ∧
      weekly_total sc x e w ≤ sc.max_shifts_per_employee_per_week := by
  have h5 : constraint5 sc x = true := ((feasible_iff sc x).mp hf).2.2.2.2
  rw [constraint5, all_range_iff] at h5
  have h5e := h5 e he
  rw [all_range_iff] at h5e
  have h5w := h5e w hw
  simp only [Bool.or_eq_true, Bool.and_eq_true, decide_eq_true_eq] at h5w
  rcases h5w with h | h
  · exact absurd h hs
  · exact h

/-- Witness for `weekly_bounds_of_feasible` at employee 0, week 0 of `cex2`. -/
theorem weekly_bounds_of_feasible_witness :
    cex2.min_shifts_per_employee_per_week ≤ weekly_total cex2 x2 0 0 ∧
      weekly_total cex2 x2 0 0 ≤ cex2.max_shifts_per_employee_per_week :=
  weekly_bounds_of_feasible cex2 x2 0 0 (by decide) (by decide) (by decide) (by decide)

/-- C3: the claim states that invalid inputs (here: an empty employee
collection) abort with a structured `InvalidInput` error before solving.  The
code contains no validation at all: `generate_schedule` on the empty-employee
scheduler builds an (empty) model, proceeds to the solver, and on an OPTIMAL
verdict returns a success envelope. -/
theorem validation_claim_false :
    cexEmpty.employees = [] ∧
      (generate_schedule cexEmpty CpStatus.optimal xFalse).isOk = true :=
  ⟨rfl, rfl⟩

/-- C3 (amended): `generate_schedule` performs no input validation: for every
input and every solver verdict it either returns a result envelope (OPTIMAL or
FEASIBLE verdicts) or raises the generic solver-failure error; an
`InvalidInput` error is never produced. -/
theorem generate_never_invalid_input (sc : ShiftScheduler) (st : CpStatus) (x : Valuation) :
    (∃ r, generate_schedule sc st x = .ok r) ∨
      generate_schedule sc st x = .error (.solverFailed st) := by
  cases st
  · exact Or.inl ⟨_, rfl⟩
  · exact Or.inl ⟨_, rfl⟩
  · exact Or.inr rfl
  · exact Or.inr rfl
  · exact Or.inr rfl

/-- C5: the claim states that all three advisor keys — including the weekly
bounds — are merged into the solver parameters.  The merge in `main.py` /
`api_server.py` copies only `min_employees_per_shift`: an override bundle
suggesting `min_shifts_per_week = 1` and `max_shifts_per_week = 20` leaves
the weekly bounds at their defaults 5 and 10. -/
theorem override_week_ignored :
    (apply_suggested_constraints cex2 ⟨none, some 20, some 1⟩).min_shifts_per_employee_per_week
        = 5 ∧
      (apply_suggested_constraints cex2 ⟨none, some 20, some 1⟩).max_shifts_per_employee_per_week
        = 10 :=
  ⟨rfl, rfl⟩

/-- C5 (amended): of the advisor override bundle only
`min_employees_per_shift` is merged; the weekly bounds and all input
collections are left untouched. -/
theorem override_merge_only_min_per_shift (sc : ShiftScheduler) (c : SuggestedConstraints) :
    (apply_suggested_constraints sc c).min_shifts_per_employee_per_week
        = sc.min_shifts_per_employee_per_week ∧
      (apply_suggested_constraints sc c).max_shifts_per_employee_per_week
        = sc.max_shifts_per_employee_per_week ∧
      (apply_suggested_constraints sc c).min_employees_per_shift
        = c.min_employees_per_shift.getD sc.min_employees_per_shift ∧
      (apply_suggested_constraints sc c).employees = sc.employees ∧
      (apply_suggested_constraints sc c).locations = sc.locations ∧
      (apply_suggested_constraints sc c).shifts = sc.shifts ∧
      (apply_suggested_constraints sc c).num_days = sc.num_days := by
  cases h : c.min_employees_per_shift <;>
    simp [apply_suggested_constraints, h]

/-- Membership in a dict-key fold: the keys are those of the accumulator plus
the streamed keys. -/
theorem mem_foldl_insertKey (l : List Nat) :
    ∀ (acc : List Nat) (x : Nat), x ∈ l.foldl insertKey acc ↔ x ∈ acc ∨ x ∈ l := by
  induction l with
  | nil => simp
  | cons a t ih =>
    intro acc x
    rw [List.foldl_cons, ih]
    by_cases h : a ∈ acc
    · simp only [insertKey, if_pos h, List.mem_cons]
      constructor
      · rintro (h1 | h1)
        · exact Or.inl h1
        · exact Or.inr (Or.inr h1)
      · rintro (h1 | h1 | h1)
        · exact Or.inl h1
        · exact Or.inl (h1 ▸ h)
        · exact Or.inr h1
    · simp only [insertKey, if_neg h, List.mem_append, List.mem_singleton, List.mem_cons]
      tauto

/-- A dict-key fold from a duplicate-free accumulator stays duplicate-free. -/
theorem nodup_foldl_insertKey (l : List Nat) :
    ∀ acc : List Nat, acc.Nodup → (l.foldl insertKey acc).Nodup := by
  induction l with
  | nil => intro acc h; simpa using h
  | cons a t ih =>
    intro acc hacc
    rw [List.foldl_cons]
    apply ih
    by_cases h : a ∈ acc
    · simpa [insertKey, if_pos h] using hacc
    · rw [insertKey, if_neg h]
      refine (List.nodup_append).mpr ⟨hacc, List.nodup_singleton a, ?_⟩
      intro x hx hx1
      rw [List.mem_singleton] at hx1
      exact h (hx1 ▸ hx)

/-- Dict keys are exactly the streamed keys. -/
theorem pyKeys_mem (l : List Nat) (x : Nat) : x ∈ pyKeys l ↔ x ∈ l := by
  rw [pyKeys, mem_foldl_insertKey]
  simp

/-- Dict keys carry no duplicates. -/
theorem pyKeys_nodup (l : List Nat) : (pyKeys l).Nodup :=
  nodup_foldl_insertKey l [] (by simp)

/-- The dict-key list is a permutation of `dedup`. -/
theorem pyKeys_perm_dedup (l : List Nat) : (pyKeys l).Perm l.dedup :=
  (List.perm_ext_iff_of_nodup (pyKeys_nodup l) (List.nodup_dedup l)).mpr
    (fun a => by rw [pyKeys_mem, List.mem_dedup])

/-- Counting the assignments with a given key value equals counting that value
among the mapped keys. -/
theorem length_filter_key (key : Assignment → Nat) (s : List Assignment) (k : Nat) :
    (s.filter fun a => key a == k).length = (s.map key).count k := by
  rw [← List.countP_eq_length_filter, List.count_eq_countP, List.countP_map]
  rfl

/-- The per-key counts over the dict keys of any grouping sum to the length of
the schedule list. -/
theorem sum_counts_over_keys (key : Assignment → Nat) (s : List Assignment) :
    ((pyKeys (s.map key)).map fun k => (s.filter fun a => key a == k).length).sum
      = s.length := by
  have h1 : ((pyKeys (s.map key)).map fun k => (s.filter fun a => key a == k).length)
      = ((pyKeys (s.map key)).map fun k => (s.map key).count k) := by
    exact List.map_congr_left fun k _ => length_filter_key key s k
  rw [h1]
  have h2 := (pyKeys_perm_dedup (s.map key)).map fun k => (s.map key).count k
  rw [h2.sum_eq, List.sum_map_count_dedup_eq_length, List.length_map]

/-- C10: the values of each statistics grouping — per employee, per location,
per day, per shift type — sum to `total_assignments`, which equals the length
of the schedule list. -/
theorem groupings_sum_to_total (s : List Assignment) :
    ((_calculate_statistics s).shifts_per_employee.map Prod.snd).sum
        = (_calculate_statistics s).total_assignments ∧
      ((_calculate_statistics s).shifts_per_location.map Prod.snd).sum
        = (_calculate_statistics s).total_assignments ∧
      ((_calculate_statistics s).shifts_per_day.map Prod.snd).sum
        = (_calculate_statistics s).total_assignments ∧
      ((_calculate_statistics s).shifts_per_type.map Prod.snd).sum
        = (_calculate_statistics s).total_assignments ∧
      (_calculate_statistics s).total_assignments = s.length := by
  refine ⟨?_, ?_, ?_, ?_, rfl⟩ <;>
    simp only [_calculate_statistics, List.map_map, Function.comp_def, empIds, empCount,
      locIds, locCount, dayIds, dayCount, typeIds, typeCount] <;>
    exact sum_counts_over_keys _ s

/-- A `min`-fold is bounded by its seed and by every streamed element. -/
theorem foldl_min_le (t : List Nat) :
    ∀ a : Nat, t.foldl min a ≤ a ∧ ∀ k ∈ t, t.foldl min a ≤ k := by
  induction t with
  | nil => intro a; simp
  | cons b t ih =>
    intro a
    rw [List.foldl_cons]
    have h1 := (ih (min a b)).1
    have hm1 : min a b ≤ a := min_le_left a b
    have hm2 : min a b ≤ b := min_le_right a b
    refine ⟨by omega, ?_⟩
    intro k hk
    rcases List.mem_cons.mp hk with h | h
    · subst h; omega
    · exact (ih (min a b)).2 k h

/-- A `min`-fold returns its seed or a streamed element. -/
theorem foldl_min_mem (t : List Nat) :
    ∀ a : Nat, t.foldl min a = a ∨ t.foldl min a ∈ t := by
  induction t with
  | nil => intro a; simp
  | cons b t ih =>
    intro a
    rw [List.foldl_cons]
    rcases ih (min a b) with h | h
    · rcases Nat.le_total a b with hab | hab
      · exact Or.inl (by rw [h]; exact min_eq_left hab)
      · exact Or.inr (List.mem_cons.mpr (Or.inl (by rw [h]; exact min_eq_right hab)))
    · exact Or.inr (List.mem_cons.mpr (Or.inr h))

/-- A `max`-fold dominates its seed and every streamed element. -/
theorem foldl_max_le (t : List Nat) :
    ∀ a : Nat, a ≤ t.foldl max a ∧ ∀ k ∈ t, k ≤ t.foldl max a := by
  induction t with
  | nil => intro a; simp
  | cons b t ih =>
    intro a
    rw [List.foldl_cons]
    have h1 := (ih (max a b)).1
    have hm1 : a ≤ max a b := le_max_left a b
    have hm2 : b ≤ max a b := le_max_right a b
    refine ⟨by omega, ?_⟩
    intro k hk
    rcases List.mem_cons.mp hk with h | h
    · subst h; omega
    · exact (ih (max a b)).2 k h

/-- A `max`-fold returns its seed or a streamed element. -/
theorem foldl_max_mem (t : List Nat) :
    ∀ a : Nat, t.foldl max a = a ∨ t.foldl max a ∈ t := by
  induction t with
  | nil => intro a; simp
  | cons b t ih =>
    intro a
    rw [List.foldl_cons]
    rcases ih (max a b) with h | h
    · rcases Nat.le_total a b with hab | hab
      · exact Or.inr (List.mem_cons.mpr (Or.inl (by rw [h]; exact max_eq_right hab)))
      · exact Or.inl (by rw [h]; exact max_eq_left hab)
    · exact Or.inr (List.mem_cons.mpr (Or.inr h))

/-- `pyMin` lower-bounds every element. -/
theorem pyMin_le (l : List Nat) (k : Nat) (hk : k ∈ l) : pyMin l ≤ k := by
  cases l with
  | nil => cases hk
  | cons a t =>
    rcases List.mem_cons.mp hk with h | h
    · exact h ▸ (foldl_min_le t a).1
    · exact (foldl_min_le t a).2 k h

/-- `pyMin` of a non-empty list is one of its elements. -/
theorem pyMin_mem (l : List Nat) (hl : l ≠ []) : pyMin l ∈ l := by
  cases l with
  | nil => exact absurd rfl hl
  | cons a t =>
    rcases foldl_min_mem t a with h | h
    · exact List.mem_cons.mpr (Or.inl h)
    · exact List.mem_cons.mpr (Or.inr h)

/-- `pyMax` upper-bounds every element. -/
theorem pyMax_le (l : List Nat) (k : Nat) (hk : k ∈ l) : k ≤ pyMax l := by
  cases l with
  | nil => cases hk
  | cons a t =>
    rcases List.mem_cons.mp hk with h | h
    · exact h ▸ (foldl_max_le t a).1
    · exact (foldl_max_le t a).2 k h

/-- `pyMax` of a non-empty list is one of its elements. -/
theorem pyMax_mem (l : List Nat) (hl : l ≠ []) : pyMax l ∈ l := by
  cases l with
  | nil => exact absurd rfl hl
  | cons a t =>
    rcases foldl_max_mem t a with h | h
    · exact List.mem_cons.mpr (Or.inl h)
    · exact List.mem_cons.mpr (Or.inr h)

/-- The claim's reading of `min_shifts_per_employee`: the minimum of `cnt_e`
over **all** input employees, an employee with no assignments contributing 0. -/
def claimMinShiftsAllEmployees (sc : ShiftScheduler) (schedule : List Assignment) : Nat :=
  pyMin (sc.employees.map fun emp => empCount schedule emp.id)

set_option maxRecDepth 4000 in
/-- C7: the claim — aggregates taken over all `E` input employees, absent
employees contributing `cnt_e = 0` — is false on the code: in the successful
result of `cex2` under `x2`, employee 6 has no assignments, so the claimed
minimum over all employees is 0, while `_calculate_statistics` reports the
minimum over the dict of assigned employees only, namely 14. -/
theorem stats_min_over_assigned_only :
    feasible cex2 x2 = true ∧
      (_calculate_statistics (_extract_schedule cex2 x2)).min_shifts_per_employee = 14 ∧
      claimMinShiftsAllEmployees cex2 (_extract_schedule cex2 x2) = 0 :=
  ⟨by decide, by decide, by decide⟩

/-- A list of casts sums to the cast of the sum. -/
theorem sum_cast_eq (l : List Nat) : (l.map (Nat.cast : Nat → ℝ)).sum = (l.sum : ℝ) :=
  (Nat.cast_list_sum l).symm

/-- A non-empty schedule has a non-empty employee-id key list. -/
theorem empIds_ne_nil (s : List Assignment) (hne : s ≠ []) : empIds s ≠ [] := by
  cases s with
  | nil => exact absurd rfl hne
  | cons a t =>
    intro h0
    have hmem : a.employee_id ∈ empIds (a :: t) := by
      rw [empIds, pyKeys_mem]
      exact List.mem_map.mpr ⟨a, List.mem_cons_self a t, rfl⟩
    rw [h0] at hmem
    cases hmem

/-- A non-empty schedule has a non-empty count list. -/
theorem shift_values_ne_nil (s : List Assignment) (hne : s ≠ []) : shift_values s ≠ [] :=
  fun h => empIds_ne_nil s hne (List.map_eq_nil_iff.mp h)

/-- An empty count list forces an empty schedule. -/
theorem eq_nil_of_shift_values (s : List Assignment) (hv : shift_values s = []) : s = [] := by
  by_contra hne
  exact shift_values_ne_nil s hne hv

/-- C7 (amended): the reported employee aggregates range over the employees
appearing in the schedule (each contributing its positive count), not over
all input employees: `min`/`max` bound and are attained among those counts,
the mean satisfies `avg · N = total assignments` with `N` the number of
assigned employees, and the variance is the mean squared deviation over those
`N` counts. -/
theorem stats_aggregate_assigned (s : List Assignment) :
    (∀ k ∈ empIds s,
        (_calculate_statistics s).min_shifts_per_employee ≤ empCount s k ∧
          empCount s k ≤ (_calculate_statistics s).max_shifts_per_employee) ∧
      (s ≠ [] →
        (_calculate_statistics s).min_shifts_per_employee ∈ shift_values s ∧
          (_calculate_statistics s).max_shifts_per_employee ∈ shift_values s) ∧
      (_calculate_statistics s).avg_shifts_per_employee * ((empIds s).length : ℝ)
          = (s.length : ℝ) ∧
      varianceStat s * ((empIds s).length : ℝ)
          = ((shift_values s).map (fun v : Nat => ((v : ℝ) - avg_shifts s) ^ 2)).sum := by
  have hlen : (shift_values s).length = (empIds s).length := List.length_map _ _
  have hsum : (shift_values s).sum = s.length := by
    simpa [shift_values, empIds, empCount] using
      sum_counts_over_keys (fun a => a.employee_id) s
  refine ⟨?_, ?_, ?_, ?_⟩
  · intro k hk
    have hv : empCount s k ∈ shift_values s := List.mem_map.mpr ⟨k, hk, rfl⟩
    exact ⟨pyMin_le _ _ hv, pyMax_le _ _ hv⟩
  · intro hne
    exact ⟨pyMin_mem _ (shift_values_ne_nil s hne), pyMax_mem _ (shift_values_ne_nil s hne)⟩
  · by_cases hv : shift_values s = []
    · have h0 : s = [] := eq_nil_of_shift_values s hv
      have h1 : empIds s = [] := List.map_eq_nil_iff.mp hv
      show avg_shifts s * _ = _
      rw [avg_shifts, if_pos hv, h1, h0]
      simp
    · have hlpos : 0 < (shift_values s).length := List.length_pos.mpr hv
      have hne0 : ((shift_values s).length : ℝ) ≠ 0 := Nat.cast_ne_zero.mpr hlpos.ne'
      show avg_shifts s * _ = _
      rw [avg_shifts, if_neg hv, ← hlen, div_mul_cancel₀ _ hne0, sum_cast_eq, hsum]
  · by_cases hv : shift_values s = []
    · have h1 : empIds s = [] := by
        rw [shift_values] at hv
        exact List.map_eq_nil_iff.mp hv
      simp [varianceStat, hv, h1]
    · have hlpos : 0 < (shift_values s).length := List.length_pos.mpr hv
      have hne0 : ((shift_values s).length : ℝ) ≠ 0 := Nat.cast_ne_zero.mpr hlpos.ne'
      rw [varianceStat, if_neg hv, ← hlen, div_mul_cancel₀ _ hne0]

/-- Schedule with a single assignment, used as witness input. -/
def w7s : List Assignment := [⟨1, "e1", 0, 0, "L0", 0, "morning", "06:00", "14:00"⟩]

/-- Witness for `stats_aggregate_assigned` at the one-assignment schedule. -/
theorem stats_aggregate_assigned_witness :
    (_calculate_statistics w7s).min_shifts_per_employee ∈ shift_values w7s ∧
      (_calculate_statistics w7s).max_shifts_per_employee ∈ shift_values w7s :=
  (stats_aggregate_assigned w7s).2.1 (by decide)

/-- Every employee id in the key list has at least one assignment. -/
theorem one_le_empCount (s : List Assignment) (k : Nat) (hk : k ∈ empIds s) :
    1 ≤ empCount s k := by
  rw [empIds, pyKeys_mem] at hk
  rcases List.mem_map.mp hk with ⟨a, ha, hak⟩
  have : a ∈ s.filter fun b => b.employee_id == k :=
    List.mem_filter.mpr ⟨ha, by simp [hak]⟩
  exact List.length_pos.mpr (List.ne_nil_of_mem this)

/-- A sum of non-negative reals is zero exactly when all terms are zero. -/
theorem sum_nonneg_zero_iff (l : List ℝ) (h : ∀ v ∈ l, 0 ≤ v) :
    l.sum = 0 ↔ ∀ v ∈ l, v = 0 := by
  induction l with
  | nil => simp
  | cons a t ih =>
    have ha := h a (List.mem_cons_self a t)
    have ht : ∀ v ∈ t, 0 ≤ v := fun v hv => h v (List.mem_cons_of_mem a hv)
    have htsum : 0 ≤ t.sum := List.sum_nonneg ht
    rw [List.sum_cons]
    constructor
    · intro h0
      have ha0 : a = 0 := by linarith
      have ht0 : t.sum = 0 := by linarith
      intro v hv
      rcases List.mem_cons.mp hv with h1 | h1
      · exact h1 ▸ ha0
      · exact ((ih ht).mp ht0) v h1
    · intro h0
      rw [h0 a (List.mem_cons_self a t),
        (ih ht).mpr fun v hv => h0 v (List.mem_cons_of_mem a hv)]
      ring

/-- A list whose elements all equal `c` sums to `length · c`. -/
theorem sum_const_of_eq (l : List ℝ) (c : ℝ) (h : ∀ v ∈ l, v = c) :
    l.sum = l.length * c := by
  induction l with
  | nil => simp
  | cons a t ih =>
    rw [List.sum_cons, ih fun v hv => h v (List.mem_cons_of_mem a hv),
      h a (List.mem_cons_self a t), List.length_cons]
    push_cast
    ring

/-- `round2` is monotone. -/
theorem round2_mono {a b : ℝ} (h : a ≤ b) : round2 a ≤ round2 b := by
  rw [round2, round2]
  have h1 : round (a * 100) ≤ round (b * 100) := by
    rw [round_eq, round_eq]
    exact Int.floor_mono (by linarith)
  have h2 : ((round (a * 100) : ℤ) : ℝ) ≤ ((round (b * 100) : ℤ) : ℝ) :=
    Int.cast_le.mpr h1
  exact (div_le_div_iff_of_pos_right (by norm_num)).mpr h2

/-- `round2 0 = 0`. -/
theorem round2_zero : round2 0 = 0 := by
  rw [round2]
  norm_num

/-- `round2 100 = 100`. -/
theorem round2_hundred : round2 (100 : ℝ) = 100 := by
  rw [round2, show ((100 : ℝ) * 100) = ((10000 : ℤ) : ℝ) by norm_num, round_intCast]
  norm_num

/-- The mean count over a non-empty key list is positive. -/
theorem avg_shifts_pos (s : List Assignment) (hv : shift_values s ≠ []) :
    0 < avg_shifts s := by
  rw [avg_shifts, if_neg hv]
  have hlen : (0 : ℝ) < (shift_values s).length := by
    exact_mod_cast List.length_pos.mpr hv
  apply div_pos _ hlen
  rw [sum_cast_eq]
  have h1 : 1 ≤ (shift_values s).sum := by
    cases hvv : shift_values s with
    | nil => exact absurd hvv hv
    | cons a t =>
      have ha : a ∈ shift_values s := by
        rw [hvv]
        exact List.mem_cons_self a t
      rcases List.mem_map.mp ha with ⟨k, hk, hka⟩
      have h2 : 1 ≤ a := hka ▸ one_le_empCount s k hk
      rw [List.sum_cons]
      omega
  exact_mod_cast Nat.lt_of_lt_of_le Nat.zero_lt_one h1

/-- The variance is non-negative. -/
theorem varianceStat_nonneg (s : List Assignment) : 0 ≤ varianceStat s := by
  rw [varianceStat]
  by_cases hv : shift_values s = []
  · rw [if_pos hv]
  · rw [if_neg hv]
    apply div_nonneg _ (by positivity)
    exact List.sum_nonneg fun v hvmem => by
      rcases List.mem_map.mp hvmem with ⟨w, _, hw⟩
      rw [← hw]
      positivity

/-- For a non-empty key list, the variance vanishes exactly when every count
equals the mean. -/
theorem variance_zero_iff (s : List Assignment) (hv : shift_values s ≠ []) :
    varianceStat s = 0 ↔ ∀ v ∈ shift_values s, (v : ℝ) = avg_shifts s := by
  rw [varianceStat, if_neg hv]
  have hlen : ((shift_values s).length : ℝ) ≠ 0 := by
    have := List.length_pos.mpr hv
    positivity
  have hsq : ∀ u ∈ (shift_values s).map (fun v : Nat => ((v : ℝ) - avg_shifts s) ^ 2),
      0 ≤ u := by
    intro u hu
    rcases List.mem_map.mp hu with ⟨w, _, hw⟩
    rw [← hw]
    positivity
  rw [div_eq_zero_iff]
  constructor
  · rintro (h | h)
    · intro v hvmem
      have hterm := (sum_nonneg_zero_iff _ hsq).mp h (((v : ℝ) - avg_shifts s) ^ 2)
        (List.mem_map.mpr ⟨v, hvmem, rfl⟩)
      have := pow_eq_zero_iff (n := 2) (by norm_num) |>.mp hterm
      linarith [sub_eq_zero.mp this]
    · exact absurd h hlen
  · intro h
    left
    exact (sum_nonneg_zero_iff _ hsq).mpr fun u hu => by
      rcases List.mem_map.mp hu with ⟨w, hwmem, hw⟩
      rw [← hw, h w hwmem, sub_self]
      ring

/-- C6: the claim as stated is false at the empty schedule: all per-employee
counts are vacuously equal, yet the reported `load_balance_score` is the
`else`-branch value 0, not 100. -/
theorem load_balance_empty_zero :
    (∀ v ∈ shift_values ([] : List Assignment),
        ∀ w ∈ shift_values ([] : List Assignment), v = w) ∧
      (_calculate_statistics ([] : List Assignment)).load_balance_score = 0 ∧
      (0 : ℝ) ≠ 100 := by
  refine ⟨by simp [shift_values, empIds, pyKeys], ?_, by norm_num⟩
  show round2 (load_balance_score_raw []) = 0
  have hnil : shift_values ([] : List Assignment) = [] := rfl
  rw [load_balance_score_raw, if_pos hnil, round2_zero]

/-- C6 (amended): the reported `load_balance_score` always lies in `[0, 100]`,
and the unrounded score equals 100 exactly when the schedule is non-empty and
all per-employee counts are equal (the empty schedule scores 0). -/
theorem load_balance_bounds_iff :
    (∀ s : List Assignment, 0 ≤ (_calculate_statistics s).load_balance_score ∧
        (_calculate_statistics s).load_balance_score ≤ 100) ∧
      ∀ s : List Assignment, load_balance_score_raw s = 100 ↔
        (shift_values s ≠ [] ∧ ∀ v ∈ shift_values s, ∀ w ∈ shift_values s, v = w) := by
  have hraw : ∀ s : List Assignment,
      0 ≤ load_balance_score_raw s ∧ load_balance_score_raw s ≤ 100 := by
    intro s
    rw [load_balance_score_raw]
    by_cases hv : shift_values s = []
    · rw [if_pos hv]
      norm_num
    · rw [if_neg hv]
      refine ⟨le_max_left 0 _, max_le (by norm_num) (min_le_left 100 _)⟩
  constructor
  · intro s
    have h := hraw s
    constructor
    · have := round2_mono h.1
      rwa [round2_zero] at this
    · have := round2_mono h.2
      rwa [round2_hundred] at this
  · intro s
    by_cases hv : shift_values s = []
    · rw [load_balance_score_raw, if_pos hv]
      simp [hv]
    · have hA : 0 < avg_shifts s := avg_shifts_pos s hv
      have hcv : coefficient_of_variation s = std_dev s / avg_shifts s := by
        rw [coefficient_of_variation, if_neg hv, if_pos hA]
      have hcv0 : 0 ≤ coefficient_of_variation s := by
        rw [hcv]
        exact div_nonneg (Real.sqrt_nonneg _) hA.le
      have hkey : coefficient_of_variation s = 0 ↔
          ∀ v ∈ shift_values s, (v : ℝ) = avg_shifts s := by
        rw [hcv, div_eq_zero_iff]
        constructor
        · rintro (h | h)
          · have hvar0 : varianceStat s = 0 :=
              le_antisymm (Real.sqrt_eq_zero'.mp h) (varianceStat_nonneg s)
            exact (variance_zero_iff s hv).mp hvar0
          · exact absurd h hA.ne'
        · intro h
          left
          rw [std_dev, (variance_zero_iff s hv).mpr h, Real.sqrt_zero]
      rw [load_balance_score_raw, if_neg hv]
      constructor
      · intro hmax
        have hmin : min 100 (100 * (1 - coefficient_of_variation s)) = 100 := by
          rcases max_choice 0 (min 100 (100 * (1 - coefficient_of_variation s))) with h | h
          · rw [h] at hmax
            norm_num at hmax
          · rw [h] at hmax
            exact hmax
        have h100 : (100 : ℝ) ≤ 100 * (1 - coefficient_of_variation s) :=
          min_eq_left_iff.mp hmin
        have hcvz : coefficient_of_variation s = 0 := le_antisymm (by linarith) hcv0
        refine ⟨hv, ?_⟩
        intro v hvm w hwm
        have h1 := (hkey.mp hcvz) v hvm
        have h2 := (hkey.mp hcvz) w hwm
        exact_mod_cast h1.trans h2.symm
      · rintro ⟨-, hall⟩
        have hallA : ∀ v ∈ shift_values s, (v : ℝ) = avg_shifts s := by
          rcases List.exists_mem_of_ne_nil _ hv with ⟨a, hmema⟩
          have hconst : ∀ u ∈ (shift_values s).map (Nat.cast : Nat → ℝ), u = (a : ℝ) := by
            intro u hu
            rcases List.mem_map.mp hu with ⟨w, hwmem, hw⟩
            rw [← hw]
            exact_mod_cast hall w hwmem a hmema
          have hsum := sum_const_of_eq _ _ hconst
          rw [List.length_map] at hsum
          have hlen : ((shift_values s).length : ℝ) ≠ 0 := by
            have := List.length_pos.mpr hv
            positivity
          have hAa : avg_shifts s = (a : ℝ) := by
            rw [avg_shifts, if_neg hv, hsum, mul_comm, mul_div_assoc,
              div_self hlen, mul_one]
          intro v hvm
          rw [hAa]
          exact_mod_cast hall v hvm a hmema
        have hcvz : coefficient_of_variation s = 0 := hkey.mpr hallA
        rw [hcvz]
        norm_num

/-- Two-assignment schedule with equal counts, used as witness input. -/
def w6s : List Assignment :=
  [⟨1, "e1", 0, 0, "L0", 0, "morning", "06:00", "14:00"⟩,
   ⟨2, "e2", 0, 0, "L0", 0, "morning", "06:00", "14:00"⟩]

/-- Witness for `load_balance_bounds_iff`: equal counts score exactly 100. -/
theorem load_balance_bounds_iff_witness : load_balance_score_raw w6s = 100 :=
  (load_balance_bounds_iff.2 w6s).mpr ⟨by decide, by decide⟩

/-- The hard-coded normaliser `math.log2(3)` is positive. -/
theorem logb23_pos : 0 < Real.logb 2 3 :=
  Real.logb_pos (by norm_num) (by norm_num)

/-- `log2 3 < 8/5` (from `3^5 = 243 < 256 = 2^8`). -/
theorem logb23_lt : Real.logb 2 3 < 8 / 5 := by
  have h2 : (0 : ℝ) < Real.log 2 := Real.log_pos (by norm_num)
  rw [Real.logb, div_lt_iff₀ h2]
  have h : Real.log ((3 : ℝ) ^ (5 : ℕ)) < Real.log ((2 : ℝ) ^ (8 : ℕ)) :=
    Real.log_lt_log (by norm_num) (by norm_num)
  rw [Real.log_pow, Real.log_pow] at h
  push_cast at h
  linarith

/-- A sum of non-positive reals is non-positive. -/
theorem sum_nonpos_of_nonpos (l : List ℝ) (h : ∀ v ∈ l, v ≤ 0) : l.sum ≤ 0 := by
  induction l with
  | nil => simp
  | cons a t ih =>
    rw [List.sum_cons]
    have := h a (List.mem_cons_self a t)
    have := ih fun v hv => h v (List.mem_cons_of_mem a hv)
    linarith

/-- A member of a list of naturals is at most the sum. -/
theorem mem_le_sum (l : List Nat) (c : Nat) (hc : c ∈ l) : c ≤ l.sum := by
  induction l with
  | nil => cases hc
  | cons a t ih =>
    rw [List.sum_cons]
    rcases List.mem_cons.mp hc with h | h
    · omega
    · have := ih h
      omega

/-- The per-employee entropy is non-negative: every summand
`p · log2 p` with `0 < p ≤ 1` is non-positive. -/
theorem entropyOf_nonneg (counts : List Nat) : 0 ≤ entropyOf counts := by
  rw [entropyOf, neg_nonneg]
  apply sum_nonpos_of_nonpos
  intro v hv
  rcases List.mem_map.mp hv with ⟨c, hcmem, hcv⟩
  rw [← hcv]
  by_cases hc : 0 < c
  · rw [if_pos hc]
    have hcsum : c ≤ counts.sum := mem_le_sum counts c hcmem
    have hsumpos : 0 < counts.sum := lt_of_lt_of_le hc hcsum
    have hp0 : (0 : ℝ) ≤ (c : ℝ) / (counts.sum : ℝ) := by positivity
    have hp1 : (c : ℝ) / (counts.sum : ℝ) ≤ 1 := by
      rw [div_le_one (by exact_mod_cast hsumpos)]
      exact_mod_cast hcsum
    have hlog : Real.logb 2 ((c : ℝ) / (counts.sum : ℝ)) ≤ 0 :=
      Real.logb_nonpos (by norm_num) hp0 hp1
    have := mul_le_mul_of_nonneg_left hlog hp0
    simpa using this
  · rw [if_neg hc]

/-- Entropy of a uniform histogram over `n` types: `log2 n`. -/
theorem entropyOf_replicate (n c : Nat) (hn : 0 < n) (hc : 0 < c) :
    entropyOf (List.replicate n c) = Real.logb 2 n := by
  have hnR : ((n : ℕ) : ℝ) ≠ 0 := Nat.cast_ne_zero.mpr hn.ne'
  have hcR : ((c : ℕ) : ℝ) ≠ 0 := Nat.cast_ne_zero.mpr hc.ne'
  have hsum : (((List.replicate n c).sum : ℕ) : ℝ) = (n : ℝ) * (c : ℝ) := by
    rw [List.sum_replicate]
    push_cast [smul_eq_mul]
    ring
  rw [entropyOf, List.map_replicate, List.sum_replicate, if_pos hc, hsum]
  have hfrac : (c : ℝ) / ((n : ℝ) * (c : ℝ)) = ((n : ℝ))⁻¹ := by
    field_simp
    ring
  rw [hfrac, Real.logb_inv, nsmul_eq_mul]
  field_simp

/-- A uniform three-type histogram scores exactly 100. -/
theorem diversity_score_replicate3 (c : Nat) (hc : 0 < c) :
    diversity_score_of (List.replicate 3 c) = 100 := by
  rw [diversity_score_of, if_pos logb23_pos, entropyOf_replicate 3 c (by norm_num) hc]
  push_cast
  rw [div_self logb23_pos.ne']
  norm_num

/-- A `filterMap` that returns `some c` on every element is a constant map. -/
theorem filterMap_eq_map_const {α β : Type} (l : List α) (f : α → Option β) (c : β)
    (h : ∀ a ∈ l, f a = some c) : l.filterMap f = l.map fun _ => c := by
  induction l with
  | nil => simp
  | cons a t ih =>
    rw [List.filterMap_cons, h a (List.mem_cons_self a t), List.map_cons,
      ih fun v hv => h v (List.mem_cons_of_mem a hv)]

/-- Schedule giving one employee four assignments at four distinct shift
types (a template of length `S = 4`). -/
def cex4Sched : List Assignment :=
  [⟨1, "e1", 0, 0, "L0", 0, "s0", "00:00", "06:00"⟩,
   ⟨1, "e1", 1, 0, "L0", 1, "s1", "06:00", "12:00"⟩,
   ⟨1, "e1", 2, 0, "L0", 2, "s2", "12:00", "18:00"⟩,
   ⟨1, "e1", 3, 0, "L0", 3, "s3", "18:00", "00:00"⟩]

/-- C4: the claim says the diversity score is normalised by `log2(S)` and lies
in `[0, 100]`.  The code divides by the hard-coded `math.log2(3)` whatever the
template length: for the four-type schedule `cex4Sched`, the per-employee
entropy is `log2 4 = 2`, the score `200 / log2 3 ≈ 126.2`, and the reported
`avg_shift_diversity` exceeds 100. -/
theorem diversity_above_100 :
    100 < (_calculate_statistics cex4Sched).avg_shift_diversity := by
  have h1 : empIds cex4Sched = [1] := rfl
  have h2 : histValues cex4Sched 1 = [1, 1, 1, 1] := rfl
  have hscores : shift_diversity_scores cex4Sched = [diversity_score_of [1, 1, 1, 1]] := by
    rw [shift_diversity_scores, h1]
    simp [h2]
  have hlogb4 : Real.logb 2 ((4 : ℕ) : ℝ) = 2 := by
    push_cast
    rw [show (4 : ℝ) = 2 ^ (2 : ℕ) by norm_num, Real.logb_pow,
      Real.logb_self_eq_one (by norm_num)]
    norm_num
  have hds : diversity_score_of [1, 1, 1, 1] = 200 / Real.logb 2 3 := by
    rw [diversity_score_of, if_pos logb23_pos,
      show ([1, 1, 1, 1] : List Nat) = List.replicate 4 1 from rfl,
      entropyOf_replicate 4 1 (by norm_num) (by norm_num), hlogb4]
    ring
  have hraw : avg_shift_diversity_raw cex4Sched = 200 / Real.logb 2 3 := by
    rw [avg_shift_diversity_raw, hscores, if_neg (by simp), hds]
    simp
  have hy : (125 : ℝ) < 200 / Real.logb 2 3 := by
    have h125 : (125 : ℝ) = 200 / (8 / 5) := by norm_num
    rw [h125]
    exact div_lt_div_of_pos_left (by norm_num) logb23_pos logb23_lt
  show (100 : ℝ) < round2 (avg_shift_diversity_raw cex4Sched)
  rw [hraw, round2]
  have habs := abs_le.mp (abs_sub_round (200 / Real.logb 2 3 * 100))
  have hge : 200 / Real.logb 2 3 * 100 - 1 / 2
      ≤ ((round (200 / Real.logb 2 3 * 100) : ℤ) : ℝ) := by
    linarith [habs.1, habs.2]
  rw [lt_div_iff₀ (by norm_num : (0 : ℝ) < 100)]
  linarith

/-- C4 (amended): `avg_shift_diversity` is the mean over assigned employees of
the entropy normalised by the constant `log2 3` (not `log2 S`); the unrounded
mean is always non-negative, and when every assigned employee's histogram is
uniform over exactly three shift types the reported value is exactly 100. -/
theorem diversity_log2_3_normalised :
    (∀ s : List Assignment, 0 ≤ avg_shift_diversity_raw s) ∧
      ∀ s : List Assignment, s ≠ [] →
        (∀ k ∈ empIds s, ∃ c, 0 < c ∧ histValues s k = [c, c, c]) →
        (_calculate_statistics s).avg_shift_diversity = 100 := by
  constructor
  · intro s
    rw [avg_shift_diversity_raw]
    by_cases hs : shift_diversity_scores s = []
    · rw [if_pos hs]
    · rw [if_neg hs]
      apply div_nonneg _ (by positivity)
      apply List.sum_nonneg
      intro v hv
      rcases List.mem_filterMap.mp hv with ⟨k, _, hk⟩
      by_cases hpos : 0 < (histValues s k).sum
      · rw [if_pos hpos, Option.some_inj] at hk
        rw [← hk, diversity_score_of, if_pos logb23_pos]
        have hent := entropyOf_nonneg (histValues s k)
        exact mul_nonneg (div_nonneg hent logb23_pos.le) (by norm_num)
      · rw [if_neg hpos] at hk
        cases hk
  · intro s hne huni
    have hids : empIds s ≠ [] := empIds_ne_nil s hne
    have hconst : ∀ k ∈ empIds s,
        (if 0 < (histValues s k).sum then some (diversity_score_of (histValues s k))
          else none) = some (100 : ℝ) := by
      intro k hk
      rcases huni k hk with ⟨c, hc, hhist⟩
      have hsum : 0 < (histValues s k).sum := by
        rw [hhist]
        simpa using hc
      rw [if_pos hsum, hhist,
        show ([c, c, c] : List Nat) = List.replicate 3 c from rfl,
        diversity_score_replicate3 c hc]
    have hscores : shift_diversity_scores s = (empIds s).map fun _ => (100 : ℝ) := by
      rw [shift_diversity_scores]
      exact filterMap_eq_map_const _ _ _ hconst
    have hlen : ((empIds s).length : ℝ) ≠ 0 := by
      have := List.length_pos.mpr hids
      positivity
    have hraw : avg_shift_diversity_raw s = 100 := by
      rw [avg_shift_diversity_raw, hscores, if_neg (by simpa using hids)]
      rw [sum_const_of_eq _ 100 (by
        intro v hv
        rcases List.mem_map.mp hv with ⟨k, _, hk⟩
        exact hk.symm)]
      rw [List.length_map, mul_comm, mul_div_assoc, div_self hlen, mul_one]
    show round2 (avg_shift_diversity_raw s) = 100
    rw [hraw, round2_hundred]

/-- Schedule giving one employee three assignments at the three shift types,
used as witness input. -/
def unif3Sched : List Assignment :=
  [⟨1, "e1", 0, 0, "L0", 0, "morning", "06:00", "14:00"⟩,
   ⟨1, "e1", 1, 0, "L0", 1, "afternoon", "14:00", "22:00"⟩,
   ⟨1, "e1", 2, 0, "L0", 2, "evening", "22:00", "06:00"⟩]

/-- Witness for `diversity_log2_3_normalised` at a uniform three-type schedule. -/
theorem diversity_log2_3_normalised_witness :
    (_calculate_statistics unif3Sched).avg_shift_diversity = 100 :=
  diversity_log2_3_normalised.2 unif3Sched (by decide) (by
    intro k hk
    have h1 : empIds unif3Sched = [1] := rfl
    rw [h1] at hk
    have hk1 : k = 1 := by simpa using hk
    subst hk1
    exact ⟨1, Nat.one_pos, rfl⟩)

/-- An existing decision variable has all four indices in range. -/
theorem hasVar_bounds (sc : ShiftScheduler) (e d l s : Nat)
    (h : hasVar sc e d l s = true) :
    e < sc.num_employees ∧ d < sc.num_days ∧ l < sc.num_locations ∧
      s < sc.num_shifts_per_day := by
  rw [hasVar] at h
  cases he : sc.employees[e]? with
  | none =>
    rw [he] at h
    exact absurd h (by simp)
  | some emp =>
    cases hl : sc.locations[l]? with
    | none =>
      rw [he, hl] at h
      exact absurd h (by simp)
    | some loc =>
      rw [he, hl] at h
      simp only [Bool.and_eq_true, decide_eq_true_eq] at h
      refine ⟨?_, h.1.1, ?_, h.1.2⟩
      · rcases List.getElem?_eq_some.mp he with ⟨hlt, -⟩
        exact hlt
      · rcases List.getElem?_eq_some.mp hl with ⟨hlt, -⟩
        exact hlt

/-- A tuple is extracted iff its decision variable exists and is valued 1. -/
theorem extractTuples_mem (sc : ShiftScheduler) (x : Valuation) (e d l s : Nat) :
    (e, d, l, s) ∈ extractTuples sc x ↔ (hasVar sc e d l s && x e d l s) = true := by
  constructor
  · intro hmem
    rw [extractTuples] at hmem
    rcases List.mem_flatten.mp hmem with ⟨b1, hb1, ht1⟩
    rcases List.mem_map.mp hb1 with ⟨e1, -, rfl⟩
    rcases List.mem_flatten.mp ht1 with ⟨b2, hb2, ht2⟩
    rcases List.mem_map.mp hb2 with ⟨d1, -, rfl⟩
    rcases List.mem_flatten.mp ht2 with ⟨b3, hb3, ht3⟩
    rcases List.mem_map.mp hb3 with ⟨l1, -, rfl⟩
    rcases List.mem_map.mp ht3 with ⟨s1, hs1, heq⟩
    rcases List.mem_filter.mp hs1 with ⟨-, hcond⟩
    simp only [Prod.mk.injEq] at heq
    obtain ⟨rfl, rfl, rfl, rfl⟩ := heq
    exact hcond
  · intro hcond
    have hvt : hasVar sc e d l s = true := by
      have h := hcond
      simp only [Bool.and_eq_true] at h
      exact h.1
    have hb := hasVar_bounds sc e d l s hvt
    rw [extractTuples]
    apply List.mem_flatten.mpr
    refine ⟨_, List.mem_map.mpr ⟨e, List.mem_range.mpr hb.1, rfl⟩, ?_⟩
    apply List.mem_flatten.mpr
    refine ⟨_, List.mem_map.mpr ⟨d, List.mem_range.mpr hb.2.1, rfl⟩, ?_⟩
    apply List.mem_flatten.mpr
    refine ⟨_, List.mem_map.mpr ⟨l, List.mem_range.mpr hb.2.2.1, rfl⟩, ?_⟩
    exact List.mem_map.mpr ⟨s, List.mem_filter.mpr ⟨List.mem_range.mpr hb.2.2.2, hcond⟩, rfl⟩

/-- Strict lexicographic order on `(e, d, l, s)` tuples. -/
def tupLt (a b : Nat × Nat × Nat × Nat) : Prop :=
  a.1 < b.1 ∨ (a.1 = b.1 ∧ (a.2.1 < b.2.1 ∨ (a.2.1 = b.2.1 ∧
    (a.2.2.1 < b.2.2.1 ∨ (a.2.2.1 = b.2.2.1 ∧ a.2.2.2 < b.2.2.2)))))

/-- `tupLt` is irreflexive. -/
theorem tupLt_irrefl (a : Nat × Nat × Nat × Nat) : ¬ tupLt a a := by
  simp [tupLt]

/-- Any member of a per-`(e, d)` block of the extraction has that employee and
day in its first two components. -/
theorem mem_block_shape (sc : ShiftScheduler) (x : Valuation) (e d : Nat)
    (t : Nat × Nat × Nat × Nat)
    (h : t ∈ ((List.range sc.num_locations).map fun l =>
      (((List.range sc.num_shifts_per_day).filter fun s =>
        hasVar sc e d l s && x e d l s).map fun s => (e, d, l, s))).flatten) :
    t.1 = e ∧ t.2.1 = d := by
  rcases List.mem_flatten.mp h with ⟨blk, hblk, ht⟩
  rcases List.mem_map.mp hblk with ⟨l, -, rfl⟩
  rcases List.mem_map.mp ht with ⟨s, -, rfl⟩
  exact ⟨rfl, rfl⟩

/-- Any member of a per-employee block has that employee first. -/
theorem mem_empblock_shape (sc : ShiftScheduler) (x : Valuation) (e : Nat)
    (t : Nat × Nat × Nat × Nat)
    (h : t ∈ (((List.range sc.num_days).map fun d =>
      ((List.range sc.num_locations).map fun l =>
        (((List.range sc.num_shifts_per_day).filter fun s =>
          hasVar sc e d l s && x e d l s).map fun s => (e, d, l, s))).flatten)).flatten) :
    t.1 = e := by
  rcases List.mem_flatten.mp h with ⟨blk, hblk, ht⟩
  rcases List.mem_map.mp hblk with ⟨d, -, rfl⟩
  exact (mem_block_shape sc x e d t ht).1

/-- The extraction loops emit tuples in strictly increasing lexicographic
order. -/
theorem extractTuples_pairwise (sc : ShiftScheduler) (x : Valuation) :
    List.Pairwise tupLt (extractTuples sc x) := by
  rw [extractTuples, List.pairwise_flatten]
  constructor
  · intro blk hblk
    rcases List.mem_map.mp hblk with ⟨e, -, rfl⟩
    rw [List.pairwise_flatten]
    constructor
    · intro blk2 hblk2
      rcases List.mem_map.mp hblk2 with ⟨d, -, rfl⟩
      rw [List.pairwise_flatten]
      constructor
      · intro blk3 hblk3
        rcases List.mem_map.mp hblk3 with ⟨l, -, rfl⟩
        rw [List.pairwise_map]
        refine ((List.pairwise_lt_range _).sublist (List.filter_sublist _)).imp ?_
        intro s1 s2 h
        exact Or.inr ⟨rfl, Or.inr ⟨rfl, Or.inr ⟨rfl, h⟩⟩⟩
      · rw [List.pairwise_map]
        refine (List.pairwise_lt_range _).imp ?_
        intro l1 l2 h t1 ht1 t2 ht2
        rcases List.mem_map.mp ht1 with ⟨s1, -, rfl⟩
        rcases List.mem_map.mp ht2 with ⟨s2, -, rfl⟩
        exact Or.inr ⟨rfl, Or.inr ⟨rfl, Or.inl h⟩⟩
    · rw [List.pairwise_map]
      refine (List.pairwise_lt_range _).imp ?_
      intro d1 d2 h t1 ht1 t2 ht2
      rcases mem_block_shape sc x e d1 t1 ht1 with ⟨he1, hd1⟩
      rcases mem_block_shape sc x e d2 t2 ht2 with ⟨he2, hd2⟩
      exact Or.inr ⟨he1.trans he2.symm, Or.inl (by rw [hd1, hd2]; exact h)⟩
  · rw [List.pairwise_map]
    refine (List.pairwise_lt_range _).imp ?_
    intro e1 e2 h t1 ht1 t2 ht2
    have he1 := mem_empblock_shape sc x e1 t1 ht1
    have he2 := mem_empblock_shape sc x e2 t2 ht2
    exact Or.inl (by rw [he1, he2]; exact h)

/-- The extraction emits no duplicate tuple. -/
theorem extractTuples_nodup (sc : ShiftScheduler) (x : Valuation) :
    (extractTuples sc x).Nodup :=
  (extractTuples_pairwise sc x).imp fun h heq => absurd (heq ▸ h) (tupLt_irrefl _)

/-- C9: the extracted schedule holds exactly one record per support tuple
valued 1 — membership characterised by `hasVar` and the valuation, with no
duplicates — and the tuples appear in strictly increasing lexicographic order
on `(e, d, l, s)`; the record list is the image of the tuple list under the
denormalising constructor. -/
theorem extraction_lex_order (sc : ShiftScheduler) (x : Valuation) :
    (∀ e d l s, (e, d, l, s) ∈ extractTuples sc x ↔
        (hasVar sc e d l s && x e d l s) = true) ∧
      (extractTuples sc x).Nodup ∧
      List.Pairwise tupLt (extractTuples sc x) ∧
      _extract_schedule sc x = (extractTuples sc x).map
        fun t => mkAssignment sc t.1 t.2.1 t.2.2.1 t.2.2.2 :=
  ⟨fun e d l s => extractTuples_mem sc x e d l s, extractTuples_nodup sc x,
    extractTuples_pairwise sc x, rfl⟩

/-- Witness for `extraction_lex_order` in concrete form: the `cex2` extraction
contains the tuple of employee 0, day 0, location 0, shift 0. -/
theorem extraction_lex_order_witness :
    (0, 0, 0, 0) ∈ extractTuples cex2 x2 :=
  ((extraction_lex_order cex2 x2).1 0 0 0 0).mpr (by decide)

/-- C8: an employee never has a skill in an empty required-skill set
(`bool(set(...).intersection(set())) == False`), so a location whose
`required_skills` is empty gets no decision variable at any cell and never
occurs in an extracted schedule. -/
theorem empty_required_skills_incompatible (sc : ShiftScheduler) (x : Valuation)
    (l : Nat) (loc : Location) (hl : sc.locations[l]? = some loc)
    (hreq : loc.required_skills = []) :
    (∀ emp, _employee_has_required_skills emp loc = false) ∧
      (∀ e d s, hasVar sc e d l s = false) ∧
      ∀ t ∈ extractTuples sc x, t.2.2.1 ≠ l := by
  have hcompat : ∀ emp, _employee_has_required_skills emp loc = false := by
    intro emp
    rw [_employee_has_required_skills, hreq]
    simp
  have hvar : ∀ e d s, hasVar sc e d l s = false := by
    intro e d s
    rw [hasVar, hl]
    cases he : sc.employees[e]? with
    | none => simp
    | some emp => simp [hcompat emp]
  refine ⟨hcompat, hvar, ?_⟩
  rintro ⟨e1, d1, l1, s1⟩ ht hteq
  have hl1 : l1 = l := hteq
  subst hl1
  have hcond := (extractTuples_mem sc x e1 d1 l1 s1).mp ht
  rw [hvar e1 d1 s1] at hcond
  simp at hcond

/-- Scheduler whose only location requires no skills, used as witness input. -/
def w8sc : ShiftScheduler where
  employees := [⟨0, "e0", ["A"]⟩]
  locations := [⟨0, "L0", [], none⟩]
  shifts := [⟨0, "morning", "06:00", "14:00"⟩]

/-- Witness for `empty_required_skills_incompatible`: in `w8sc` no decision
variable exists at the skill-free location. -/
theorem empty_required_skills_incompatible_witness :
    hasVar w8sc 0 0 0 0 = false :=
  (empty_required_skills_incompatible w8sc xFalse 0 ⟨0, "L0", [], none⟩ rfl rfl).2.1 0 0 0

end HRM
